import Mathlib

/-!
Verification of the durable-coroutine runtime and compiler against its
natural-language specification.  The definitions below are shallow embeddings
of the Go source: the coroutine `Context` and its `Yield` protocol, the global
type registry (`typemap`), the statement desugarer, the function-body
compiler's single-expression exemption, the context marshalling entry points,
and the import synthesizer of the compiler.
-/


namespace Coroutine

/-- A frame of the coroutine stack.  The runtime `Stack` type is not part of
the sources under verification; per the spec a frame carries an instruction
pointer and a resume flag (the deferred list and locals play no role in the
`Yield` protocol). -/
structure Frame where
  ip : Nat
  resume : Bool
  deriving Repr, DecidableEq

/-- The coroutine `Context`: recv/send slots, the `done` and `stop` booleans,
and the frame stack (the entrypoint closure and the heap are irrelevant to the
modelled operations and omitted).  Mirrors `Context[R, S]` in the source. -/
structure Context (R S : Type) where
  recv : R
  send : S
  done : Bool
  stop : Bool
  frames : List Frame
  deriving Repr, DecidableEq

/-- Modelled from the spec: `Stack.Top` is not under the verified sources;
the spec says push appends, pop removes the last, and `Top` returns the last
frame without mutation.  `none` models the runtime fault of `Top` on an empty
stack. -/
def Context.Top {R S : Type} (c : Context R S) : Option Frame :=
  c.frames.getLast?

/-- Replace the last frame of a stack (the effect of writing through the
pointer returned by `Top`). -/
def setTop (fs : List Frame) (f : Frame) : List Frame :=
  fs.dropLast ++ [f]

/-- Possible outcomes of a call to `Context.Yield`: a normal return of a send
value, a `panic(unwind)` raising the unwind sentinel, a `panic(string)`
abort, or the runtime fault of reading the top of an empty stack. -/
inductive YieldResult (R S : Type) where
  | returned (value : S) (c : Context R S)
  | unwound (c : Context R S)
  | aborted (msg : String) (c : Context R S)
  | topFault (c : Context R S)
  deriving Repr, DecidableEq

/-- The abort message used by `Context.Yield` in the source. -/
def stopMessage : String := "cannot yield from a coroutine that has been stopped"

/-- Shallow embedding of `Context.Yield` from the source:
if `c.stop` it panics with `stopMessage`; otherwise, with `frame := c.Top()`,
if `frame.Resume` it clears the flag, re-checks `c.stop` (raising the unwind
sentinel if set) and returns `c.send`; else it sets the flag, zeroes `send`,
stores the value into `recv` and raises the unwind sentinel. -/
def Context.Yield {R S : Type} [Inhabited S] (c : Context R S) (value : R) :
    YieldResult R S :=
  if c.stop then
    .aborted stopMessage c
  else
    match c.Top with
    | none => .topFault c
    | some frame =>
      if frame.resume then
        let c' := { c with frames := setTop c.frames { frame with resume := false } }
        if c'.stop then
          .unwound c'
        else
          .returned c'.send c'
      else
        .unwound { c with
          frames := setTop c.frames { frame with resume := true },
          send := (default : S),
          recv := value }

/-- Shallow embedding of `Context.Unwinding` from the source:
`len(c.Frames) > 0 && c.Top().Resume`. -/
def Context.Unwinding {R S : Type} (c : Context R S) : Bool :=
  decide (0 < c.frames.length) && (match c.frames.getLast? with
    | some f => f.resume
    | none => false)

/-- Whether a yield outcome raised the unwind sentinel. -/
def YieldResult.isUnwound {R S : Type} : YieldResult R S → Bool
  | .unwound _ => true
  | _ => false

/-- A concrete context used in examples and counterexamples: send slot `7`,
stop flag as given, a single frame with the given resume flag. -/
def sampleCtx (stopFlag resumeFlag : Bool) : Context Nat Nat :=
  { recv := 0, send := 7, done := false, stop := stopFlag,
    frames := [{ ip := 1, resume := resumeFlag }] }

/-- Modelled from the spec: the frame-stack wire format written by
`serde.Serialize` (not under the verified sources) is `(count, frame0, ...)`;
each frame contributes its ip and resume flag (locals and the deferred list
are irrelevant to the marshalling entry points). -/
def encodeFrame (f : Frame) : List Nat :=
  [f.ip, if f.resume then 1 else 0]

/-- Modelled from the spec: the encodings of the frames, in stack order. -/
def encodeFrames : List Frame → List Nat
  | [] => []
  | f :: fs => encodeFrame f ++ encodeFrames fs

/-- Modelled from the spec: `serde.Serialize` appends the serialized stack
(count followed by the frames) to the buffer and returns the extended
buffer. -/
def serdeSerialize (fs : List Frame) (b : List Nat) : List Nat :=
  b ++ (fs.length :: encodeFrames fs)

/-- Decode one frame from the head of the buffer. -/
def decodeFrame : List Nat → Option (Frame × List Nat)
  | ip :: r :: rest => some ({ ip := ip, resume := r == 1 }, rest)
  | _ => none

/-- Decode `n` frames from the head of the buffer. -/
def decodeFrames : Nat → List Nat → Option (List Frame × List Nat)
  | 0, b => some ([], b)
  | n + 1, b =>
    match decodeFrame b with
    | some (f, b1) =>
      match decodeFrames n b1 with
      | some (fs, b2) => some (f :: fs, b2)
      | none => none
    | none => none

/-- Modelled from the spec: `serde.Deserialize` consumes a prefix of the
buffer, reconstructing the value, and returns the value together with the
remaining bytes.  `none` models the panic on malformed input. -/
def serdeDeserialize : List Nat → Option (List Frame × List Nat)
  | n :: rest => decodeFrames n rest
  | [] => none

/-- Shallow embedding of `Context.MarshalAppend`: appends the serialized
frame stack to the buffer (the heap is ignored by the source, and the error
result is always nil). -/
def Context.MarshalAppend {R S : Type} (c : Context R S) (b : List Nat) :
    List Nat :=
  serdeSerialize c.frames b

/-- Shallow embedding of `Context.Unmarshal`: deserializes a stack from the
buffer's prefix, installs it, and returns `start - len(rest)` — the number of
bytes consumed — together with the updated context. -/
def Context.Unmarshal {R S : Type} (c : Context R S) (b : List Nat) :
    Option (Nat × Context R S) :=
  match serdeDeserialize b with
  | some (fs, rest) => some (b.length - rest.length, { c with frames := fs })
  | none => none

end Coroutine

namespace Registry

/-- Association-list read, modelling a Go map lookup `v, ok := m[k]`. -/
def alookup {κ β : Type} [DecidableEq κ] : List (κ × β) → κ → Option β
  | [], _ => none
  | (k, v) :: rest, t => if k = t then some v else alookup rest t

/-- Association-list write, modelling a Go map store `m[k] = v`. -/
def aset {κ β : Type} [DecidableEq κ] : List (κ × β) → κ → β → List (κ × β)
  | [], t, v => [(t, v)]
  | (k, w) :: rest, t, v =>
    if k = t then (t, v) :: rest else (k, w) :: aset rest t v

/-- The `serde` record of the source: a stable id plus the serializer and
deserializer callbacks.  Callbacks are opaque values of types `α`, `β`;
`none` models a nil Go function value. -/
structure Serde (α β : Type) where
  id : Nat
  ser : Option α
  des : Option β
  deriving Repr, DecidableEq

/-- The `typemap` of the source: the registration-order list `custom` of
types and the `serdes` map from type to its `serde` record (the `cache`
field plays no role in the registration operations). -/
structure typemap (κ α β : Type) where
  custom : List κ
  serdes : List (κ × Serde α β)
  deriving Repr, DecidableEq

/-- `newTypemap()`: empty registry. -/
def newTypemap {κ α β : Type} : typemap κ α β :=
  { custom := [], serdes := [] }

/-- The panic message of `typemap.attach` when a callback is nil. -/
def missingCallbackMessage : String :=
  "both serializer and deserializer need to be provided"

/-- Shallow embedding of `typemap.attach`: panic (error) when either callback
is nil; otherwise look up the existing `serde` record, assigning the next id
(and appending to `custom`) only when the type was never seen, then overwrite
the callbacks and store the record back. -/
def typemap.attach {κ α β : Type} [DecidableEq κ] (m : typemap κ α β)
    (t : κ) (ser : Option α) (des : Option β) :
    Except String (typemap κ α β) :=
  if ser.isNone || des.isNone then
    .error missingCallbackMessage
  else
    match alookup m.serdes t with
    | some s =>
      .ok { m with serdes := aset m.serdes t { s with ser := ser, des := des } }
    | none =>
      .ok { custom := m.custom ++ [t],
            serdes := aset m.serdes t
              { id := m.custom.length, ser := ser, des := des } }

/-- Shallow embedding of `typemap.serdeOf`. -/
def typemap.serdeOf {κ α β : Type} [DecidableEq κ] (m : typemap κ α β)
    (x : κ) : Option (Serde α β) :=
  alookup m.serdes x

/-- Shallow embedding of `registerSerde` (the body of `Register`): the user's
possibly-nil serializer and deserializer of types `Option σ` and `Option δ`
are wrapped in closures `s` and `d`, which are function values and hence
never nil themselves; the wrappers are then handed to `typemap.attach`.  The
wrapper is modelled by the inner callback it captures, so the callback
payload handed to `attach` is `some serializer` / `some deserializer`. -/
def registerSerde {κ σ δ : Type} [DecidableEq κ]
    (m : typemap κ (Option σ) (Option δ)) (t : κ)
    (serializer : Option σ) (deserializer : Option δ) :
    Except String (typemap κ (Option σ) (Option δ)) :=
  m.attach t (some serializer) (some deserializer)

/-- One registration step in a sequence: a panicking `attach` aborts the
program before mutating the registry, so the registry state at the panic is
the unchanged one. -/
def attachRun {κ α β : Type} [DecidableEq κ] (m : typemap κ α β)
    (op : κ × Option α × Option β) : typemap κ α β :=
  match m.attach op.1 op.2.1 op.2.2 with
  | .ok m' => m'
  | .error _ => m

/-- A sequence of `attach` operations applied to a registry. -/
def attachMany {κ α β : Type} [DecidableEq κ] (m : typemap κ α β)
    (ops : List (κ × Option α × Option β)) : typemap κ α β :=
  ops.foldl attachRun m

/-- An operation that passes the nil-callback check of `attach`. -/
def okOp {κ α β : Type} (op : κ × Option α × Option β) : Bool :=
  op.2.1.isSome && op.2.2.isSome

/-- Append a key if it is not already present (registration order, first
occurrence wins). -/
def insertNew {κ : Type} [DecidableEq κ] (acc : List κ) (t : κ) : List κ :=
  if t ∈ acc then acc else acc ++ [t]

/-- The distinct types successfully registered by a sequence of operations,
in first-registration order. -/
def registeredTypes {κ α β : Type} [DecidableEq κ]
    (ops : List (κ × Option α × Option β)) : List κ :=
  ops.foldl (fun acc op => if okOp op then insertNew acc op.1 else acc) []

/-- The registry invariant: every recorded id indexes the registration-order
list at its own type, the registration-order list and the map have the same
domain, and the registration-order list has no duplicates. -/
def typemap.WF {κ α β : Type} [DecidableEq κ] (m : typemap κ α β) : Prop :=
  (∀ t s, alookup m.serdes t = some s → m.custom.get? s.id = some t) ∧
  (∀ t, t ∈ m.custom ↔ (alookup m.serdes t).isSome = true) ∧
  m.custom.Nodup

/-- Concrete registry used by the registration witnesses: type 5 is already
registered with id 0. -/
def m0 : typemap Nat Nat Nat :=
  { custom := [5], serdes := [(5, { id := 0, ser := some 1, des := some 1 })] }

/-- Concrete operation sequence used by the registration witnesses. -/
def ops0 : List (Nat × Option Nat × Option Nat) :=
  [(9, some 4, some 4), (5, some 7, some 7)]

/-- Whether an `Except` result is a success. -/
def isOkE {ε γ : Type} : Except ε γ → Bool
  | .ok _ => true
  | .error _ => false

/-- Concrete operation sequence for the dense-ids witness: types 3 and 4
registered (3 twice), one operation rejected for a nil serializer. -/
def ops1 : List (Nat × Option Nat × Option Nat) :=
  [(3, some 1, some 1), (4, some 1, some 1), (3, some 2, some 2), (9, none, some 1)]

end Registry

namespace Imports
open Registry

/-- One observation made by `addImports`' AST walk: a selector expression
`ident.Sel` yields the qualifier's name, whether the qualifier resolves to a
package name object, and the imported package's path. -/
structure Obs where
  name : String
  isPkgName : Bool
  path : String
  deriving Repr, DecidableEq

/-- `strings.TrimPrefix(pkg, "vendor/")` from the source. -/
def trimVendor (p : String) : String :=
  if p.data.take 7 = "vendor/".data then String.mk (p.data.drop 7) else p

/-- The panic message of `addImports` on a conflict. -/
def conflictMessage : String := "conflicting imports"

/-- Whether an observation reaches the map-insertion code of `addImports`
(non-empty qualifier, package-name object, non-empty path). -/
def binds (o : Obs) : Bool :=
  (o.name != "") && o.isPkgName && (o.path != "")

/-- One step of `addImports`' walk: skip observations that do not bind;
otherwise panic on a conflicting existing binding for the local name, else
store the (vendor-trimmed) path under the local name. -/
def collectStep (acc : List (String × String)) (o : Obs) :
    Except String (List (String × String)) :=
  if o.name = "" then .ok acc
  else if !o.isPkgName then .ok acc
  else if o.path = "" then .ok acc
  else
    let pkg := trimVendor o.path
    match alookup acc o.name with
    | some existing =>
      if existing ≠ pkg then .error conflictMessage
      else .ok (aset acc o.name pkg)
    | none => .ok (aset acc o.name pkg)

/-- The import-collection fold of `addImports` over the walk's observations;
a panic aborts the walk (and the compiler invocation). -/
def collectImports : List Obs → List (String × String) →
    Except String (List (String × String))
  | [], acc => .ok acc
  | o :: os, acc =>
    match collectStep acc o with
    | .ok acc' => collectImports os acc'
    | .error e => .error e

/-- `addImports`' conflict check on a generated file, starting from the
empty local-name map. -/
def addImportsCheck (obs : List Obs) : Except String (List (String × String)) :=
  collectImports obs []

/-- Two binding observations give the same local name two distinct modules
(import paths compared after vendor-trimming, which is how the source
canonicalizes module identity). -/
def HasConflict (obs : List Obs) : Prop :=
  ∃ o1, o1 ∈ obs ∧ ∃ o2, o2 ∈ obs ∧ binds o1 = true ∧ binds o2 = true ∧
    o1.name = o2.name ∧ trimVendor o1.path ≠ trimVendor o2.path

end Imports

namespace Compiler

/-- Go types, as far as the desugarer inspects them. -/
inductive GoType where
  | int
  | bool
  | array (elem : GoType)
  | slice (elem : GoType)
  | mapT (key : GoType) (value : GoType)
  | named (n : String)
  deriving Repr, DecidableEq

/-- Assignment tokens: `:=` (DEFINE) and `=` (ASSIGN). -/
inductive AssignTok where
  | define
  | assign
  deriving Repr, DecidableEq

/-- Branch statement tokens. -/
inductive BranchTok where
  | brk
  | cont
  | fallthroughTok
  | gotoTok
  deriving Repr, DecidableEq

mutual
/-- Go expressions (`ast.Expr`), as far as the modelled passes build or
inspect them; `anonE` stands for an arbitrary user expression that the
passes treat as a black box. -/
inductive Expr where
  | ident (name : String)
  | basicLit (kind : String) (value : String)
  | callE (fn : Expr) (args : List Expr)
  | binaryE (x : Expr) (op : String) (y : Expr)
  | indexE (x : Expr) (idx : Expr)
  | typeE (t : GoType)
  | selectorE (x : Expr) (sel : String)
  | indexListE (x : Expr) (indices : List Expr)
  | unaryE (op : String) (x : Expr)
  | starE (x : Expr)
  | funcLitE (body : List Stmt)
  | anonE (tag : Nat)

/-- Go statements (`ast.Stmt`); block bodies are statement lists, mirroring
`*ast.BlockStmt.List`. -/
inductive Stmt where
  | block (body : List Stmt)
  | ifS (init : Option Stmt) (cond : Expr) (body : List Stmt) (els : Option Stmt)
  | forS (init : Option Stmt) (cond : Option Expr) (post : Option Stmt) (body : List Stmt)
  | rangeS (key : Option Expr) (value : Option Expr) (tok : AssignTok) (x : Expr) (body : List Stmt)
  | switchS (init : Option Stmt) (tag : Option Expr) (body : List Stmt)
  | typeSwitchS (init : Option Stmt) (assignStmt : Stmt) (body : List Stmt)
  | caseS (exprs : List Expr) (body : List Stmt)
  | branchS (tok : BranchTok) (label : Option String)
  | labeledS (label : String) (stmt : Stmt)
  | assignS (lhs : List Expr) (tok : AssignTok) (rhs : List Expr)
  | incDecS (x : Expr) (inc : Bool)
  | exprS (x : Expr)
  | declS (tag : Nat)
  | varDeclS (name : String) (ty : Expr) (value : Expr)
  | deferS (fn : Expr) (args : List Expr)
  | goS (fn : Expr) (args : List Expr)
  | returnS (results : List Expr)
  | sendS (ch : Expr) (value : Expr)
  | emptyS
  | selectS (body : List Stmt)
  | commS (comm : Option Stmt) (body : List Stmt)
end

deriving instance Repr for Expr, Stmt

/-- The desugarer's immutable environment: the `types.Info` typing of source
expressions. -/
structure D where
  tyOf : Expr → GoType

/-- The desugarer's mutable state: the `vars` and `labels` counters, the
unused-label set, the user-label replacement map, and the `Defs` typing
entries added for generated variables. -/
structure DState where
  vars : Nat
  labels : Nat
  unusedLabels : List String
  userLabels : List (String × String)
  defs : List (String × GoType)
  deriving Repr, DecidableEq

def alookupS {β : Type} : List (String × β) → String → Option β
  | [], _ => none
  | (k, v) :: rest, t => if k = t then some v else alookupS rest t

def asetS {β : Type} : List (String × β) → String → β → List (String × β)
  | [], t, v => [(t, v)]
  | (k, w) :: rest, t, v =>
    if k = t then (t, v) :: rest else (k, w) :: asetS rest t v

/-- `d.info.TypeOf`: generated variables are looked up in the added `Defs`
entries; source expressions fall back to the package type information. -/
def typeOf (d : D) (st : DState) (e : Expr) : GoType :=
  match e with
  | .ident n =>
    match alookupS st.defs n with
    | some t => t
    | none => d.tyOf e
  | _ => d.tyOf e

/-- `d.newVar(t)`: fresh `_v{n}` identifier, recorded in `Defs` with type t. -/
def newVar (st : DState) (t : GoType) : Expr × DState :=
  (Expr.ident ("_v" ++ toString st.vars),
   { st with vars := st.vars + 1,
             defs := ("_v" ++ toString st.vars, t) :: st.defs })

/-- `d.newLabel()`: fresh `_l{n}` label, initially marked unused. -/
def newLabel (st : DState) : String × DState :=
  ("_l" ++ toString st.labels,
   { st with labels := st.labels + 1,
             unusedLabels := ("_l" ++ toString st.labels) :: st.unusedLabels })

/-- `d.addUserLabel`. -/
def addUserLabel (st : DState) (userLabel replacement : String) : DState :=
  { st with userLabels := asetS st.userLabels userLabel replacement }

/-- `d.getUserLabel`. -/
def getUserLabel (st : DState) (userLabel : String) : Option String :=
  alookupS st.userLabels userLabel

/-- `d.useLabel`: delete from the unused set (no-op on a nil label). -/
def useLabel (st : DState) (label : Option String) : DState :=
  match label with
  | none => st
  | some n => { st with unusedLabels := st.unusedLabels.erase n }

/-- `isUnderscore`. -/
def isUnderscore : Expr → Bool
  | .ident n => n = "_"
  | _ => false

/-- The identifier resolution of the range cases: a nil or underscore
binding becomes a fresh variable of the given type, an identifier is used as
is, and anything else fails the `.(*ast.Ident)` type assertion. -/
def resolveRangeIdent (e : Option Expr) (t : GoType) (st : DState) :
    Except String (Expr × DState) :=
  match e with
  | none => .ok (newVar st t)
  | some e =>
    if isUnderscore e then .ok (newVar st t)
    else match e with
      | .ident n => .ok (.ident n, st)
      | _ => .error "not an ident"

/-- The value resolution of the map-range case: a nil value becomes the
blank identifier, an identifier is used as is, and anything else fails the
`.(*ast.Ident)` type assertion. -/
def resolveValueIdent (e : Option Expr) : Except String Expr :=
  match e with
  | none => .ok (.ident "_")
  | some (.ident n) => .ok (.ident n)
  | some _ => .error "not an ident"

mutual

/-- Shallow embedding of `desugarer.desugar` (fuel-indexed; `fuel`
exhaustion yields an error that never occurs at sufficient fuel).  Each case
mirrors the corresponding `ast.Stmt` case of the source, including the order
of `newVar`/`newLabel` allocations. -/
def desugarS (d : D) : Nat → DState → Stmt → Option String → Option String →
    Option String → Except String (Stmt × DState)
  | 0, _, _, _, _, _ => .error "out of fuel"
  | fuel + 1, st, stmt, breakTo, continueTo, userLabel =>
    match stmt with
    | .block body => do
      let (l, st1) ← desugarList d fuel st body breakTo continueTo
      pure (.block l, st1)
    | .ifS init cond body els => do
      let (init1, st1) ← desugarO d fuel st init none none none
      let (body1, st2) ← desugarList d fuel st1 body breakTo continueTo
      let (els1, st3) ← desugarO d fuel st2 els breakTo continueTo none
      let s1 := Stmt.ifS none cond body1 els1
      pure (match init1 with
            | some i => (Stmt.block [i, s1], st3)
            | none => (s1, st3))
    | .forS init cond post body => do
      let (init1, st1) ← desugarO d fuel st init none none none
      let (forLabel, st2) := newLabel st1
      let st3 := match userLabel with
                 | some ul => addUserLabel st2 ul forLabel
                 | none => st2
      let (body1, st4) ← desugarList d fuel st3 body (some forLabel) (some forLabel)
      let (post1, st5) ← desugarO d fuel st4 post none none none
      let s1 := Stmt.labeledS forLabel (.forS none cond post1 body1)
      pure (match init1 with
            | some i => (Stmt.block [i, s1], st5)
            | none => (s1, st5))
    | .rangeS key value tok x body =>
      let tx := typeOf d st x
      let p1 := newVar st tx
      let xv := p1.1
      let st1 := p1.2
      let init := Stmt.assignS [xv] .define [x]
      match tx with
      | .array _ | .slice _ => do
        let (iv, st2) ← resolveRangeIdent key .int st1
        let body2 :=
          match value with
          | some v =>
            if isUnderscore v then body
            else Stmt.assignS [v] .define [Expr.indexE xv iv] :: body
          | none => body
        let (inner, st3) ← desugarS d fuel st2
          (Stmt.forS (some (.assignS [iv] .define [.basicLit "INT" "0"]))
            (some (.binaryE iv "<" (.callE (.ident "len") [xv])))
            (some (.incDecS iv true))
            body2)
          breakTo continueTo userLabel
        pure (Stmt.block [init, inner], st3)
      | .mapT keyT _ =>
        match key, value with
        | none, none => do
          let (iv, st2) := newVar st1 .int
          let (inner, st3) ← desugarS d fuel st2
            (Stmt.forS (some (.assignS [iv] .define [.basicLit "INT" "0"]))
              (some (.binaryE iv "<" (.callE (.ident "len") [xv])))
              (some (.incDecS iv true))
              body)
            breakTo continueTo userLabel
          pure (Stmt.block [init, inner], st3)
        | _, _ => do
          let (keys, st2) := newVar st1 (.slice keyT)
          let (k, st3) := newVar st2 .int
          let collectKeys := Stmt.block
            [Stmt.assignS [keys] .define
              [.callE (.ident "make")
                [.typeE (.slice keyT), .basicLit "INT" "0",
                 .callE (.ident "len") [xv]]],
             Stmt.rangeS (some k) none .define xv
               [Stmt.assignS [keys] .assign
                 [.callE (.ident "append") [keys, k]]]]
          let (mapKey, st4) ← resolveRangeIdent key keyT st3
          let mapValue ← resolveValueIdent value
          let (okv, st5) := newVar st4 .bool
          let (iterKeys, st6) ← desugarS d fuel st5
            (Stmt.rangeS none (some mapKey) .define keys
              [Stmt.ifS
                (some (.assignS [mapValue, okv] .define [.indexE xv mapKey]))
                okv body none])
            breakTo continueTo userLabel
          pure (Stmt.block [init, collectKeys, iterKeys], st6)
      | _ => .ok (Stmt.rangeS key value tok x body, st1)
    | .switchS init tag body => do
      let (init1, st1) ← desugarO d fuel st init none none none
      let (switchLabel, st2) := newLabel st1
      let st3 := match userLabel with
                 | some ul => addUserLabel st2 ul switchLabel
                 | none => st2
      let (body1, st4) ← desugarList d fuel st3 body (some switchLabel) continueTo
      let s1 := Stmt.labeledS switchLabel (.switchS none tag body1)
      pure (match init1 with
            | some i => (Stmt.block [i, s1], st4)
            | none => (s1, st4))
    | .typeSwitchS init assignStmt body => do
      let (init1, st1) ← desugarO d fuel st init none none none
      let (switchLabel, st2) := newLabel st1
      let st3 := match userLabel with
                 | some ul => addUserLabel st2 ul switchLabel
                 | none => st2
      let (assign1, st4) ← desugarS d fuel st3 assignStmt none none none
      let (body1, st5) ← desugarList d fuel st4 body (some switchLabel) continueTo
      let s1 := Stmt.labeledS switchLabel (.typeSwitchS none assign1 body1)
      pure (match init1 with
            | some i => (Stmt.block [i, s1], st5)
            | none => (s1, st5))
    | .caseS exprs body => do
      let (body1, st1) ← desugarList d fuel st body breakTo continueTo
      pure (Stmt.caseS exprs body1, st1)
    | .branchS tok label =>
      match label with
      | some l =>
        match getUserLabel st l with
        | none => .error ("label not found: " ++ l)
        | some gen =>
          .ok (Stmt.branchS tok (some gen), useLabel st (some gen))
      | none =>
        match tok with
        | .brk => .ok (Stmt.branchS .brk breakTo, useLabel st breakTo)
        | .cont => .ok (Stmt.branchS .cont continueTo, useLabel st continueTo)
        | _ => .error "not implemented"
    | .labeledS l s => desugarS d fuel st s breakTo continueTo (some l)
    | .selectS _ => .error "not implemented"
    | .commS _ _ => .error "not implemented"
    | s => .ok (s, st)

/-- Shallow embedding of `desugarer.desugarList`. -/
def desugarList (d : D) : Nat → DState → List Stmt → Option String →
    Option String → Except String (List Stmt × DState)
  | _, st, [], _, _ => .ok ([], st)
  | 0, _, _ :: _, _, _ => .error "out of fuel"
  | fuel + 1, st, s :: rest, breakTo, continueTo => do
    let (s1, st1) ← desugarS d fuel st s breakTo continueTo none
    let (rest1, st2) ← desugarList d fuel st1 rest breakTo continueTo
    pure (s1 :: rest1, st2)

/-- Desugaring of a possibly-nil statement (the source's nil case). -/
def desugarO (d : D) : Nat → DState → Option Stmt → Option String →
    Option String → Option String → Except String (Option Stmt × DState)
  | _, st, none, _, _, _ => .ok (none, st)
  | 0, _, some _, _, _, _ => .error "out of fuel"
  | fuel + 1, st, some s, b, c, u => do
    let (s1, st1) ← desugarS d fuel st s b c u
    pure (some s1, st1)
end

def st0 : DState :=
  { vars := 0, labels := 0, unusedLabels := [], userLabels := [], defs := [] }

def dW : D :=
  { tyOf := fun e =>
      match e with
      | .ident "m" => .mapT .int .int
      | .ident "xs" => .slice .int
      | _ => .named "?" }

mutual
/-- Whether a statement still contains a `range` statement. -/
def stmtHasRange : Stmt → Bool
  | .block b => stmtsHaveRange b
  | .ifS i _ b e => optHasRange i || stmtsHaveRange b || optHasRange e
  | .forS i _ p b => optHasRange i || optHasRange p || stmtsHaveRange b
  | .rangeS _ _ _ _ _ => true
  | .switchS i _ b => optHasRange i || stmtsHaveRange b
  | .typeSwitchS i a b => optHasRange i || stmtHasRange a || stmtsHaveRange b
  | .caseS _ b => stmtsHaveRange b
  | .labeledS _ s => stmtHasRange s
  | .selectS b => stmtsHaveRange b
  | .commS c b => optHasRange c || stmtsHaveRange b
  | _ => false

def stmtsHaveRange : List Stmt → Bool
  | [] => false
  | s :: rest => stmtHasRange s || stmtsHaveRange rest

def optHasRange : Option Stmt → Bool
  | none => false
  | some s => stmtHasRange s
end

def mapIntInt : GoType := .mapT .int .int

def bareMapRangeResult : Stmt :=
  .block
    [.assignS [.ident "_v0"] .define [.ident "m"],
     .block
       [.assignS [.ident "_v1"] .define [.basicLit "INT" "0"],
        .labeledS "_l0"
          (.forS none
            (some (.binaryE (.ident "_v1") "<" (.callE (.ident "len") [.ident "_v0"])))
            (some (.incDecS (.ident "_v1") true)) [])]]

def st5W : DState :=
  { vars := 4, labels := 0, unusedLabels := [], userLabels := [],
    defs := [("_v3", .bool), ("_v2", .int), ("_v1", .slice .int), ("_v0", mapIntInt)] }

def st6W : DState :=
  { vars := 6, labels := 1, unusedLabels := ["_l0"], userLabels := [],
    defs := [("_v5", .int), ("_v4", .slice .int), ("_v3", .bool), ("_v2", .int),
             ("_v1", .slice .int), ("_v0", mapIntInt)] }

def iterW : Stmt :=
  .block
    [.assignS [.ident "_v4"] .define [.ident "_v1"],
     .block
       [.assignS [.ident "_v5"] .define [.basicLit "INT" "0"],
        .labeledS "_l0"
          (.forS none
            (some (.binaryE (.ident "_v5") "<" (.callE (.ident "len") [.ident "_v4"])))
            (some (.incDecS (.ident "_v5") true))
            [.assignS [.ident "kk"] .define [.indexE (.ident "_v4") (.ident "_v5")],
             .block
               [.assignS [.ident "vv", .ident "_v3"] .define
                 [.indexE (.ident "_v0") (.ident "kk")],
                .ifS none (.ident "_v3") [.exprS (.anonE 0)] none]])]]

/-- Shallow embedding of `isExpr` from the source: true for an empty body or
a body whose single statement is an expression statement. -/
def isExpr : List Stmt → Bool
  | [] => true
  | [s] =>
    match s with
    | .exprS _ => true
    | _ => false
  | _ => false

mutual
/-- The `astutil.Apply` pass of `compileFuncBody`: rewrites each `defer f(...)`
into `_defers = append(_defers, f)` (recording that a defers list is needed)
and applies `flit` — the expression-level effect of replacing colored
function literals by their compiled forms — to the expressions in place. -/
def rwStmt (flit : Expr → Expr) : Stmt → Bool → Stmt × Bool
  | .block b, df =>
    let p := rwList flit b df
    (.block p.1, p.2)
  | .ifS i c b e, df =>
    let pi := rwOpt flit i df
    let pb := rwList flit b pi.2
    let pe := rwOpt flit e pb.2
    (.ifS pi.1 (flit c) pb.1 pe.1, pe.2)
  | .forS i c p b, df =>
    let pi := rwOpt flit i df
    let pb := rwList flit b pi.2
    let pp := rwOpt flit p pb.2
    (.forS pi.1 (c.map flit) pp.1 pb.1, pp.2)
  | .rangeS k v t x b, df =>
    let pb := rwList flit b df
    (.rangeS (k.map flit) (v.map flit) t (flit x) pb.1, pb.2)
  | .switchS i t b, df =>
    let pi := rwOpt flit i df
    let pb := rwList flit b pi.2
    (.switchS pi.1 (t.map flit) pb.1, pb.2)
  | .typeSwitchS i a b, df =>
    let pi := rwOpt flit i df
    let pa := rwStmt flit a pi.2
    let pb := rwList flit b pa.2
    (.typeSwitchS pi.1 pa.1 pb.1, pb.2)
  | .caseS es b, df =>
    let pb := rwList flit b df
    (.caseS (es.map flit) pb.1, pb.2)
  | .branchS t l, df => (.branchS t l, df)
  | .labeledS l s, df =>
    let p := rwStmt flit s df
    (.labeledS l p.1, p.2)
  | .assignS lhs t rhs, df => (.assignS (lhs.map flit) t (rhs.map flit), df)
  | .incDecS x i, df => (.incDecS (flit x) i, df)
  | .exprS x, df => (.exprS (flit x), df)
  | .declS tg, df => (.declS tg, df)
  | .varDeclS n t v, df => (.varDeclS n (flit t) (flit v), df)
  | .deferS fn _, _ =>
    (.assignS [.ident "_defers"] .assign
      [.callE (.ident "append") [.ident "_defers", flit fn]], true)
  | .goS fn args, df => (.goS (flit fn) (args.map flit), df)
  | .returnS rs, df => (.returnS (rs.map flit), df)
  | .sendS c v, df => (.sendS (flit c) (flit v), df)
  | .emptyS, df => (.emptyS, df)
  | .selectS b, df =>
    let pb := rwList flit b df
    (.selectS pb.1, pb.2)
  | .commS c b, df =>
    let pc := rwOpt flit c df
    let pb := rwList flit b pc.2
    (.commS pc.1 pb.1, pb.2)

def rwList (flit : Expr → Expr) : List Stmt → Bool → List Stmt × Bool
  | [], df => ([], df)
  | s :: rest, df =>
    let p := rwStmt flit s df
    let pr := rwList flit rest p.2
    (p.1 :: pr.1, pr.2)

def rwOpt (flit : Expr → Expr) : Option Stmt → Bool → Option Stmt × Bool
  | none, df => (none, df)
  | some s, df =>
    let p := rwStmt flit s df
    (some p.1, p.2)
end

/-- The collaborator passes of `compileFuncBody` that are not under the
verified sources, held abstract: the 3-argument desugar and the branch
marker, the expression-level colored-function-literal compilation, the type
expressions of the yield signature, `renameFuncRecvParamsResults`,
`extractDecls` (declarations, frame struct type, frame initializer),
`renameObjects`, the dispatch-span compilation, the name of the frame's
defers field, and whether the signature declares results. -/
structure Pieces where
  dsg : List Stmt → List Stmt
  mrk : List Stmt → List Stmt
  flit : Expr → Expr
  sendType : Expr
  recvType : Expr
  frameIndex : Nat
  renameFRPR : List Stmt → List Stmt
  frameTypeOf : List Stmt → Expr
  frameInitOf : List Stmt → Expr
  declsOf : List Stmt → List Stmt
  renameObjs : List Stmt → List Stmt
  dispatch : List Stmt → List Stmt
  defersFieldName : String
  hasResults : Bool

/-- The final-return injection at the end of `compileFuncBody`: when the
signature has results and the generated list does not already end in a
return statement, append an empty return. -/
def withFinalReturn (hasResults : Bool) (gen0 : List Stmt) : List Stmt :=
  let needsReturn := hasResults &&
    (match gen0.getLast? with
     | some (Stmt.returnS _) => false
     | some _ => true
     | none => true)
  if needsReturn then gen0 ++ [Stmt.returnS []] else gen0

/-- The generated `_c := coroutine.LoadContext[R, S]()` prologue statement. -/
def ctxLoadStmt (P : Pieces) : Stmt :=
  .assignS [.ident "_c"] .define
    [.callE (.indexListE (.selectorE (.ident "coroutine") "LoadContext")
      [P.sendType, P.recvType]) []]

/-- Shallow embedding of `compileFuncBody`: desugar and rewrite the body;
bodies that are a single expression (or empty) are returned as is; otherwise
the dispatch transform builds the prologue (context load, frame push,
hoisted declarations, frame initialization), the deferred pop-or-retain
epilogue, the dispatched body, and a final return when the signature has
results and the body does not already end in a return. -/
def compileFuncBody (P : Pieces) (body : List Stmt) : List Stmt :=
  let pr := rwList P.flit (P.dsg (P.mrk body)) false
  let b := pr.1
  let hasDefers := pr.2
  if isExpr b then b
  else
    let fname := "_f" ++ toString P.frameIndex
    let b1 := P.renameFRPR b
    let frameType := P.frameTypeOf b1
    let frameInit := P.frameInitOf b1
    let decls := P.declsOf b1
    let b2 := P.renameObjs b1
    let pushDecl := Stmt.varDeclS fname (.starE frameType)
      (.callE (.indexListE (.selectorE (.ident "coroutine") "Push") [frameType])
        [.unaryE "&" (.selectorE (.ident "_c") "Stack")])
    let ipInit := Stmt.ifS none
      (.binaryE (.selectorE (.ident fname) "IP") "==" (.basicLit "INT" "0"))
      [.assignS [.starE (.ident fname)] .assign [frameInit]] none
    let popFrame : List Stmt :=
      if hasDefers then
        [Stmt.deferS (.selectorE (.ident "coroutine") "Pop")
          [.unaryE "&" (.selectorE (.ident "_c") "Stack")],
         Stmt.rangeS (some (.ident "_")) (some (.ident "f")) .define
           (.selectorE (.ident fname) P.defersFieldName)
           [Stmt.deferS (.ident "f") []]]
      else
        [Stmt.exprS (.callE (.selectorE (.ident "coroutine") "Pop")
          [.unaryE "&" (.selectorE (.ident "_c") "Stack")])]
    let epilogue := Stmt.deferS
      (.funcLitE [Stmt.ifS none
        (.unaryE "!" (.callE (.selectorE (.ident "_c") "Unwinding") []))
        popFrame none]) []
    withFinalReturn P.hasResults
      (ctxLoadStmt P :: pushDecl :: (decls ++ [ipInit, epilogue])
        ++ P.dispatch b2)

/-- Concrete collaborator pieces for the exemption witnesses: identity
passes and trivial frame data. -/
def trivialPieces : Pieces :=
  { dsg := id, mrk := id, flit := id,
    sendType := .typeE .int, recvType := .typeE .int,
    frameIndex := 0, renameFRPR := id,
    frameTypeOf := fun _ => .typeE (.named "F"),
    frameInitOf := fun _ => .anonE 1,
    declsOf := fun _ => [], renameObjs := id,
    dispatch := id, defersFieldName := "_defers", hasResults := false }

end Compiler

namespace Coroutine

/-- C1 counterexample: on a stopped context, `Yield` aborts with the message
"cannot yield from a coroutine that has been stopped"; the claim's message
"cannot yield from a stopped coroutine" is not the one the code uses. -/
theorem yield_stop_message_differs :
    (sampleCtx true true).Yield 5 = .aborted stopMessage (sampleCtx true true) ∧
    stopMessage ≠ "cannot yield from a stopped coroutine" :=
  ⟨by decide, by decide⟩

/-- C1 (amended): `Yield` dispatches on the stop flag and the top frame's
resume flag: stopped contexts abort with the stop message; a resuming top
frame has its flag cleared and the stored send value is returned (the inner
stop re-check cannot fire, the entry check already ruled it out); a
non-resuming top frame records the yielded value into recv, zeroes send, sets
resume, and raises the unwind sentinel. -/
theorem yield_dispatch {R S : Type} [Inhabited S]
    (c : Context R S) (f : Frame) (hf : c.Top = some f) (v : R) :
    (c.stop = true → c.Yield v = .aborted stopMessage c) ∧
    (c.stop = false → f.resume = true →
      c.Yield v = .returned c.send
        { c with frames := setTop c.frames { f with resume := false } }) ∧
    (c.stop = false → f.resume = false →
      c.Yield v = .unwound
        { c with frames := setTop c.frames { f with resume := true },
                 send := default, recv := v }) := by
  refine ⟨?_, ?_, ?_⟩
  · intro hstop
    simp [Context.Yield, hstop]
  · intro hstop hres
    simp [Context.Yield, hstop, hf, hres]
  · intro hstop hres
    simp [Context.Yield, hstop, hf, hres]

theorem yield_dispatch_witness :
    ((sampleCtx true true).Yield 5 = .aborted stopMessage (sampleCtx true true)) ∧
    ((sampleCtx false true).Yield 5
      = .returned 7 { recv := 0, send := 7, done := false, stop := false,
                      frames := [{ ip := 1, resume := false }] }) ∧
    ((sampleCtx false false).Yield 5
      = .unwound { recv := 5, send := 0, done := false, stop := false,
                   frames := [{ ip := 1, resume := true }] }) := by
  refine ⟨?_, ?_, ?_⟩
  · exact (yield_dispatch (sampleCtx true true) { ip := 1, resume := true }
      (by decide) 5).1 (by decide)
  · have h := (yield_dispatch (sampleCtx false true) { ip := 1, resume := true }
      (by decide) 5).2.1 (by decide) (by decide)
    simpa [sampleCtx, setTop] using h
  · have h := (yield_dispatch (sampleCtx false false) { ip := 1, resume := false }
      (by decide) 5).2.2 (by decide) (by decide)
    simpa [sampleCtx, setTop] using h

/-- C2 counterexample: on a context whose stop flag is set (a suspended
coroutine being resumed after Stop), the yield attempt does not raise the
unwind sentinel; it aborts with the stop message. -/
theorem yield_after_stop_not_unwound :
    (((sampleCtx true true).Yield 5).isUnwound = false) ∧
    (sampleCtx true true).Yield 5 = .aborted stopMessage (sampleCtx true true) :=
  ⟨by decide, by decide⟩

/-- C2 (amended): after `stop` has been set, the next attempt to yield panics
immediately with the stop abort message — not the unwind sentinel — for every
state of the frame stack (the `panic(unwind)` in the resuming branch is
unreachable because the entry stop check fires first). -/
theorem yield_stop_aborts {R S : Type} [Inhabited S]
    (c : Context R S) (v : R) (h : c.stop = true) :
    c.Yield v = .aborted stopMessage c ∧ (c.Yield v).isUnwound = false := by
  constructor
  · simp [Context.Yield, h]
  · simp [Context.Yield, h, YieldResult.isUnwound]

theorem yield_stop_aborts_witness :
    (sampleCtx true false).Yield 9 = .aborted stopMessage (sampleCtx true false) ∧
    (((sampleCtx true false).Yield 9).isUnwound = false) :=
  yield_stop_aborts (sampleCtx true false) 9 (by decide)

theorem decodeFrames_encodeFrames (fs : List Frame) (extra : List Nat) :
    decodeFrames fs.length (encodeFrames fs ++ extra) = some (fs, extra) := by
  induction fs with
  | nil => simp [encodeFrames, decodeFrames]
  | cons f fs ih =>
    have hresume : ((if f.resume then 1 else 0 : Nat) == 1) = f.resume := by
      cases f.resume <;> rfl
    simp [encodeFrames, encodeFrame, decodeFrames, decodeFrame, ih, hresume]

theorem serdeDeserialize_roundtrip (fs : List Frame) (extra : List Nat) :
    serdeDeserialize (fs.length :: encodeFrames fs ++ extra) = some (fs, extra) := by
  simp [serdeDeserialize, decodeFrames_encodeFrames]

/-- C7: marshalling is append-only — `MarshalAppend b` returns `b` extended
with the serialized frame stack, leaving the prefix `b` unchanged — and for
every buffer produced this way (possibly followed by further bytes),
`Unmarshal` consumes exactly the serialized stack and returns exactly the
number of bytes it consumed, so the caller can chain. -/
theorem context_marshal_append_only {R S : Type} (c c2 : Context R S)
    (b extra : List Nat) :
    c.MarshalAppend b = b ++ (c.frames.length :: encodeFrames c.frames) ∧
    (c.MarshalAppend b).take b.length = b ∧
    c2.Unmarshal (c.MarshalAppend [] ++ extra)
      = some ((c.MarshalAppend []).length, { c2 with frames := c.frames }) := by
  refine ⟨rfl, ?_, ?_⟩
  · simp [Context.MarshalAppend, serdeSerialize]
  · have h : c.MarshalAppend [] = c.frames.length :: encodeFrames c.frames := rfl
    rw [h]
    simp only [Context.Unmarshal, List.cons_append, serdeDeserialize,
      decodeFrames_encodeFrames]
    have harith :
        (c.frames.length :: (encodeFrames c.frames ++ extra)).length - extra.length
          = (c.frames.length :: encodeFrames c.frames).length := by
      simp [List.length_cons, List.length_append]
      omega
    rw [harith]

end Coroutine

namespace Registry

theorem alookup_aset_self {κ β : Type} [DecidableEq κ]
    (l : List (κ × β)) (t : κ) (v : β) :
    alookup (aset l t v) t = some v := by
  induction l with
  | nil => simp [aset, alookup]
  | cons hd tl ih =>
    obtain ⟨k, w⟩ := hd
    by_cases h : k = t
    · simp [aset, h, alookup]
    · simp [aset, h, alookup, ih]

theorem alookup_aset_ne {κ β : Type} [DecidableEq κ]
    (l : List (κ × β)) (t u : κ) (v : β) (h : u ≠ t) :
    alookup (aset l t v) u = alookup l u := by
  have h' : ¬(t = u) := fun hh => h hh.symm
  induction l with
  | nil => simp [aset, alookup, h']
  | cons hd tl ih =>
    obtain ⟨k, w⟩ := hd
    by_cases hk : k = t
    · subst hk
      simp [aset, alookup, h']
    · simp [aset, hk, alookup, ih]

/-- One `attach` step never changes the id recorded for an
already-registered type. -/
theorem attachRun_id_stable {κ α β : Type} [DecidableEq κ]
    (m : typemap κ α β) (op : κ × Option α × Option β) (t : κ) (s : Serde α β)
    (h : alookup m.serdes t = some s) :
    ∃ s', alookup (attachRun m op).serdes t = some s' ∧ s'.id = s.id := by
  obtain ⟨u, so, dso⟩ := op
  rcases so with _ | sv
  · exact ⟨s, by simpa [attachRun, typemap.attach] using h, rfl⟩
  rcases dso with _ | dv
  · exact ⟨s, by simpa [attachRun, typemap.attach] using h, rfl⟩
  by_cases htu : t = u
  · subst htu
    refine ⟨{ s with ser := some sv, des := some dv }, ?_, rfl⟩
    simp [attachRun, typemap.attach, h, alookup_aset_self]
  · cases hu : alookup m.serdes u with
    | some su =>
      exact ⟨s, by simp [attachRun, typemap.attach, hu, alookup_aset_ne _ _ _ _ htu, h], rfl⟩
    | none =>
      exact ⟨s, by simp [attachRun, typemap.attach, hu, alookup_aset_ne _ _ _ _ htu, h], rfl⟩

/-- A sequence of `attach` steps never changes the id recorded for an
already-registered type. -/
theorem attachMany_id_stable {κ α β : Type} [DecidableEq κ]
    (m : typemap κ α β) (ops : List (κ × Option α × Option β))
    (t : κ) (s : Serde α β) (h : alookup m.serdes t = some s) :
    ∃ s', alookup (attachMany m ops).serdes t = some s' ∧ s'.id = s.id := by
  induction ops generalizing m s with
  | nil => exact ⟨s, h, rfl⟩
  | cons op ops ih =>
    obtain ⟨s1, h1, hid1⟩ := attachRun_id_stable m op t s h
    obtain ⟨s2, h2, hid2⟩ := ih (attachRun m op) s1 h1
    exact ⟨s2, h2, hid2.trans hid1⟩

theorem WF_newTypemap {κ α β : Type} [DecidableEq κ] :
    (newTypemap : typemap κ α β).WF := by
  refine ⟨?_, ?_, ?_⟩
  · intro t s h
    simp [newTypemap, alookup] at h
  · intro t
    simp [newTypemap, alookup]
  · simp [newTypemap]

/-- Reduction of a step whose serializer payload is nil. -/
theorem attachRun_nil_ser {κ α β : Type} [DecidableEq κ]
    (m : typemap κ α β) (u : κ) (dso : Option β) :
    attachRun m (u, none, dso) = m := by
  simp [attachRun, typemap.attach]

/-- Reduction of a step whose deserializer payload is nil. -/
theorem attachRun_nil_des {κ α β : Type} [DecidableEq κ]
    (m : typemap κ α β) (u : κ) (so : Option α) :
    attachRun m (u, so, none) = m := by
  rcases so with _ | sv <;> simp [attachRun, typemap.attach]

/-- Reduction of a step over an already-registered type: callbacks are
overwritten in place, `custom` and the id are untouched. -/
theorem attachRun_existing {κ α β : Type} [DecidableEq κ]
    (m : typemap κ α β) (u : κ) (sv : α) (dv : β) (su : Serde α β)
    (hu : alookup m.serdes u = some su) :
    attachRun m (u, some sv, some dv)
      = { m with serdes := aset m.serdes u { su with ser := some sv, des := some dv } } := by
  simp [attachRun, typemap.attach, hu]

/-- Reduction of a step over a fresh type: the type is appended to `custom`
and receives the next id. -/
theorem attachRun_fresh {κ α β : Type} [DecidableEq κ]
    (m : typemap κ α β) (u : κ) (sv : α) (dv : β)
    (hu : alookup m.serdes u = none) :
    attachRun m (u, some sv, some dv)
      = { custom := m.custom ++ [u],
          serdes := aset m.serdes u
            { id := m.custom.length, ser := some sv, des := some dv } } := by
  simp [attachRun, typemap.attach, hu]

theorem WF_attachRun {κ α β : Type} [DecidableEq κ]
    (m : typemap κ α β) (op : κ × Option α × Option β) (hm : m.WF) :
    (attachRun m op).WF := by
  obtain ⟨hid, hdom, hnd⟩ := hm
  obtain ⟨u, so, dso⟩ := op
  rcases so with _ | sv
  · rw [attachRun_nil_ser]
    exact ⟨hid, hdom, hnd⟩
  rcases dso with _ | dv
  · rw [attachRun_nil_des]
    exact ⟨hid, hdom, hnd⟩
  cases hu : alookup m.serdes u with
  | some su =>
    have hmem : u ∈ m.custom := (hdom u).mpr (by simp [hu])
    rw [attachRun_existing m u sv dv su hu]
    refine ⟨?_, ?_, hnd⟩
    · intro t s h
      by_cases htu : t = u
      · subst htu
        rw [alookup_aset_self] at h
        cases h
        exact hid t su hu
      · rw [alookup_aset_ne _ _ _ _ htu] at h
        exact hid t s h
    · intro t
      by_cases htu : t = u
      · subst htu
        simp [alookup_aset_self, hmem]
      · rw [alookup_aset_ne _ _ _ _ htu]
        exact hdom t
  | none =>
    have hnmem : u ∉ m.custom := by
      intro hc
      have := (hdom u).mp hc
      simp [hu] at this
    rw [attachRun_fresh m u sv dv hu]
    refine ⟨?_, ?_, ?_⟩
    · intro t s h
      by_cases htu : t = u
      · subst htu
        rw [alookup_aset_self] at h
        cases h
        exact List.get?_concat_length _ _
      · rw [alookup_aset_ne _ _ _ _ htu] at h
        have h1 := hid t s h
        have h2 : s.id < m.custom.length := by
          obtain ⟨hlt, -⟩ := List.get?_eq_some.mp h1
          exact hlt
        rw [List.get?_append h2]
        exact h1
    · intro t
      by_cases htu : t = u
      · subst htu
        simp [alookup_aset_self]
      · rw [alookup_aset_ne _ _ _ _ htu]
        simp only [List.mem_append, List.mem_singleton]
        constructor
        · intro hc
          rcases hc with hc | hc
          · exact (hdom t).mp hc
          · exact absurd hc htu
        · intro hc
          exact Or.inl ((hdom t).mpr hc)
    · simpa [List.nodup_append] using ⟨hnd, hnmem⟩

theorem WF_attachMany {κ α β : Type} [DecidableEq κ]
    (m : typemap κ α β) (ops : List (κ × Option α × Option β)) (hm : m.WF) :
    (attachMany m ops).WF := by
  induction ops generalizing m with
  | nil => exact hm
  | cons op ops ih => exact ih (attachRun m op) (WF_attachRun m op hm)

/-- Across one step, `custom` grows exactly by inserting the operation's type
when the operation's callbacks are present. -/
theorem custom_attachRun {κ α β : Type} [DecidableEq κ]
    (m : typemap κ α β) (op : κ × Option α × Option β)
    (hdom : ∀ t, t ∈ m.custom ↔ (alookup m.serdes t).isSome = true) :
    (attachRun m op).custom
      = (if okOp op then insertNew m.custom op.1 else m.custom) := by
  obtain ⟨u, so, dso⟩ := op
  rcases so with _ | sv
  · simp [attachRun, typemap.attach, okOp]
  rcases dso with _ | dv
  · simp [attachRun, typemap.attach, okOp]
  cases hu : alookup m.serdes u with
  | some su =>
    have hmem : u ∈ m.custom := (hdom u).mpr (by simp [hu])
    simp [attachRun, typemap.attach, hu, okOp, insertNew, hmem]
  | none =>
    have hnmem : u ∉ m.custom := by
      intro hc
      have := (hdom u).mp hc
      simp [hu] at this
    simp [attachRun, typemap.attach, hu, okOp, insertNew, hnmem]

theorem custom_attachMany {κ α β : Type} [DecidableEq κ]
    (m : typemap κ α β) (ops : List (κ × Option α × Option β)) (hm : m.WF) :
    (attachMany m ops).custom
      = ops.foldl (fun acc op => if okOp op then insertNew acc op.1 else acc)
          m.custom := by
  induction ops generalizing m with
  | nil => rfl
  | cons op ops ih =>
    have hstep := custom_attachRun m op hm.2.1
    have := ih (attachRun m op) (WF_attachRun m op hm)
    simpa [attachMany, List.foldl, hstep] using this

/-- C3: ids are assigned in registration order (a fresh type receives
`len(custom)`, so the first registration receives 0), re-registering an
existing type overwrites the callbacks while keeping the id, and the id
recorded for a type survives every later sequence of attach operations. -/
theorem typeRegistry_id_assignment_stable {κ α β : Type} [DecidableEq κ]
    (m : typemap κ α β) (t : κ) (a : α) (b : β)
    (ops : List (κ × Option α × Option β)) :
    (alookup m.serdes t = none →
      m.attach t (some a) (some b)
        = .ok { custom := m.custom ++ [t],
                serdes := aset m.serdes t
                  { id := m.custom.length, ser := some a, des := some b } }) ∧
    (∀ s, alookup m.serdes t = some s →
      m.attach t (some a) (some b)
        = .ok { m with
                serdes := aset m.serdes t
                  { id := s.id, ser := some a, des := some b } }) ∧
    (∀ s, alookup m.serdes t = some s →
      ((attachMany m ops).serdeOf t).map Serde.id = some s.id) := by
  refine ⟨?_, ?_, ?_⟩
  · intro h
    simp [typemap.attach, h]
  · intro s h
    simp [typemap.attach, h]
  · intro s h
    obtain ⟨s', h', hid⟩ := attachMany_id_stable m ops t s h
    simp [typemap.serdeOf, h', hid]

theorem typeRegistry_id_assignment_stable_witness :
    (m0.attach 7 (some 2) (some 3)
      = .ok { custom := [5, 7],
              serdes := [(5, { id := 0, ser := some 1, des := some 1 }),
                         (7, { id := 1, ser := some 2, des := some 3 })] }) ∧
    ((attachMany m0 ops0).serdeOf 5).map Serde.id = some 0 := by
  constructor
  · have h := (typeRegistry_id_assignment_stable m0 7 2 3 []).1 (by decide)
    simpa [m0, aset] using h
  · exact (typeRegistry_id_assignment_stable m0 5 2 3 ops0).2.2
      { id := 0, ser := some 1, des := some 1 } (by decide)

/-- C4 counterexample: registering through `Register` with a nil serializer
succeeds at registration time — the MissingCallback panic does not fire,
because `registerSerde` hands `attach` non-nil wrapper closures. -/
theorem register_nil_callback_succeeds :
    registerSerde (newTypemap : typemap Nat (Option Nat) (Option Nat)) 0 none (some 1)
      = .ok { custom := [0],
              serdes := [(0, { id := 0, ser := some none, des := some (some 1) })] } := by
  rfl

/-- C4 (amended): `Register` never fails at registration time — the callbacks
are wrapped in closures that are themselves non-nil, so `attach`'s check
passes even when the underlying callback is nil; `typemap.attach` fails with
the MissingCallback panic exactly when one of its raw callback arguments is
nil. -/
theorem register_always_ok_attach_checks_nil {κ σ δ α β : Type} [DecidableEq κ]
    (m : typemap κ (Option σ) (Option δ)) (t : κ)
    (ser : Option σ) (des : Option δ)
    (m2 : typemap κ α β) (t2 : κ) (so : Option α) (dso : Option β) :
    isOkE (registerSerde m t ser des) = true ∧
    (m2.attach t2 so dso = .error missingCallbackMessage
      ↔ (so.isNone || dso.isNone) = true) := by
  constructor
  · cases h : alookup m.serdes t <;>
      simp [registerSerde, typemap.attach, h, isOkE]
  · constructor
    · intro h
      by_contra hno
      rcases so with _ | sv
      · simp at hno
      rcases dso with _ | dv
      · simp at hno
      cases h2 : alookup m2.serdes t2 <;>
        simp [typemap.attach, h2] at h
    · intro h
      simp [typemap.attach, h]

/-- C10: after every sequence of attach operations starting from the fresh
registry, every registered type's id is a dense in-bounds index of the
registration-order list pointing back to the type itself, and the
registration-order list is exactly the duplicate-free list of distinct types
successfully registered. -/
theorem typeRegistry_dense_ids {κ α β : Type} [DecidableEq κ]
    (ops : List (κ × Option α × Option β)) :
    (∀ t s, (attachMany (newTypemap : typemap κ α β) ops).serdeOf t = some s →
        s.id < (attachMany (newTypemap : typemap κ α β) ops).custom.length ∧
        (attachMany (newTypemap : typemap κ α β) ops).custom.get? s.id = some t) ∧
    (attachMany (newTypemap : typemap κ α β) ops).custom = registeredTypes ops ∧
    (attachMany (newTypemap : typemap κ α β) ops).custom.Nodup := by
  obtain ⟨hid, hdom, hnd⟩ :=
    WF_attachMany (newTypemap : typemap κ α β) ops WF_newTypemap
  refine ⟨?_, ?_, hnd⟩
  · intro t s h
    have h1 := hid t s h
    obtain ⟨hlt, -⟩ := List.get?_eq_some.mp h1
    exact ⟨hlt, h1⟩
  · have h := custom_attachMany (newTypemap : typemap κ α β) ops WF_newTypemap
    simpa [registeredTypes, newTypemap] using h

theorem typeRegistry_dense_ids_witness :
    (1 < (attachMany (newTypemap : typemap Nat Nat Nat) ops1).custom.length ∧
      (attachMany (newTypemap : typemap Nat Nat Nat) ops1).custom.get? 1 = some 4) ∧
    (attachMany (newTypemap : typemap Nat Nat Nat) ops1).custom = registeredTypes ops1 := by
  constructor
  · exact (typeRegistry_dense_ids ops1).1 4
      { id := 1, ser := some 1, des := some 1 } (by decide)
  · exact (typeRegistry_dense_ids ops1).2.1

end Registry

namespace Imports
open Registry

theorem collectStep_eq (acc : List (String × String)) (o : Obs) :
    collectStep acc o =
      (if binds o = true then
        (match alookup acc o.name with
         | some existing =>
            if existing = trimVendor o.path
            then Except.ok (aset acc o.name (trimVendor o.path))
            else Except.error conflictMessage
         | none => Except.ok (aset acc o.name (trimVendor o.path)))
       else Except.ok acc) := by
  by_cases hn : o.name = ""
  · simp [collectStep, binds, hn]
  by_cases hpk : o.isPkgName = true
  · by_cases hp : o.path = ""
    · simp [collectStep, binds, hn, hpk, hp]
    · have hb : binds o = true := by simp [binds, hn, hpk, hp]
      rw [if_pos hb]
      simp only [collectStep, if_neg hn, hpk, Bool.not_true, Bool.false_eq_true,
        if_false, if_neg hp]
      cases alookup acc o.name with
      | none => rfl
      | some existing =>
        by_cases he : existing = trimVendor o.path
        · simp [he]
        · simp [he]
  · have hpk' : o.isPkgName = false := by
      cases hx : o.isPkgName
      · rfl
      · exact absurd hx hpk
    have hb : binds o = false := by simp [binds, hpk']
    rw [if_neg (by simp [hb])]
    simp [collectStep, hn, hpk']

theorem collectImports_cons (o : Obs) (os : List Obs)
    (acc acc' : List (String × String)) (hs : collectStep acc o = .ok acc') :
    collectImports (o :: os) acc = collectImports os acc' := by
  show (match collectStep acc o with
        | .ok a => collectImports os a
        | .error e => .error e) = _
  rw [hs]

theorem collectImports_cons_error (o : Obs) (os : List Obs)
    (acc : List (String × String)) (e : String)
    (hs : collectStep acc o = .error e) :
    collectImports (o :: os) acc = .error e := by
  show (match collectStep acc o with
        | .ok a => collectImports os a
        | .error e => .error e) = _
  rw [hs]

theorem collectImports_ok_sound (os : List Obs) :
    ∀ (acc m : List (String × String)), collectImports os acc = .ok m →
    (∀ n v, alookup acc n = some v → alookup m n = some v) ∧
    (∀ o, o ∈ os → binds o = true → alookup m o.name = some (trimVendor o.path)) := by
  induction os with
  | nil =>
    intro acc m h
    simp only [collectImports] at h
    cases h
    exact ⟨fun n v hv => hv, fun o ho => absurd ho (List.not_mem_nil o)⟩
  | cons o os ih =>
    intro acc m h
    by_cases hb : binds o = true
    · cases hl : alookup acc o.name with
      | none =>
        have hs : collectStep acc o = .ok (aset acc o.name (trimVendor o.path)) := by
          simp [collectStep_eq, hb, hl]
        rw [collectImports_cons o os acc _ hs] at h
        obtain ⟨hkeep, hbind⟩ := ih _ _ h
        refine ⟨?_, ?_⟩
        · intro n v hv
          by_cases hnn : n = o.name
          · subst hnn
            rw [hl] at hv
            cases hv
          · exact hkeep n v (by rw [alookup_aset_ne _ _ _ _ hnn]; exact hv)
        · intro o2 ho2 hb2
          rcases List.mem_cons.mp ho2 with rfl | ho2
          · exact hkeep o2.name (trimVendor o2.path) (alookup_aset_self _ _ _)
          · exact hbind o2 ho2 hb2
      | some existing =>
        by_cases he : existing = trimVendor o.path
        · have hs : collectStep acc o = .ok (aset acc o.name (trimVendor o.path)) := by
            simp [collectStep_eq, hb, hl, he]
          rw [collectImports_cons o os acc _ hs] at h
          obtain ⟨hkeep, hbind⟩ := ih _ _ h
          refine ⟨?_, ?_⟩
          · intro n v hv
            by_cases hnn : n = o.name
            · subst hnn
              rw [hl] at hv
              cases hv
              rw [he]
              exact hkeep o.name (trimVendor o.path) (alookup_aset_self _ _ _)
            · exact hkeep n v (by rw [alookup_aset_ne _ _ _ _ hnn]; exact hv)
          · intro o2 ho2 hb2
            rcases List.mem_cons.mp ho2 with rfl | ho2
            · exact hkeep o2.name (trimVendor o2.path) (alookup_aset_self _ _ _)
            · exact hbind o2 ho2 hb2
        · have hs : collectStep acc o = .error conflictMessage := by
            simp [collectStep_eq, hb, hl, he]
          rw [collectImports_cons_error o os acc _ hs] at h
          cases h
    · have hs : collectStep acc o = .ok acc := by
        simp [collectStep_eq, hb]
      rw [collectImports_cons o os acc _ hs] at h
      obtain ⟨hkeep, hbind⟩ := ih _ _ h
      refine ⟨hkeep, ?_⟩
      intro o2 ho2 hb2
      rcases List.mem_cons.mp ho2 with rfl | ho2
      · exact absurd hb2 hb
      · exact hbind o2 ho2 hb2

theorem collectImports_error_conflict (os : List Obs) :
    ∀ (acc : List (String × String)) (full : List Obs) (e : String),
    (∀ n v, alookup acc n = some v →
      ∃ o, o ∈ full ∧ binds o = true ∧ o.name = n ∧ trimVendor o.path = v) →
    (∀ o, o ∈ os → o ∈ full) →
    collectImports os acc = .error e →
    HasConflict full := by
  induction os with
  | nil =>
    intro acc full e _ _ h
    simp [collectImports] at h
  | cons o os ih =>
    intro acc full e horig hsub h
    have hmem : o ∈ full := hsub o (List.mem_cons_self o os)
    have hsub' : ∀ o2, o2 ∈ os → o2 ∈ full :=
      fun o2 ho2 => hsub o2 (List.mem_cons_of_mem o ho2)
    by_cases hb : binds o = true
    · cases hl : alookup acc o.name with
      | none =>
        have hs : collectStep acc o = .ok (aset acc o.name (trimVendor o.path)) := by
          simp [collectStep_eq, hb, hl]
        rw [collectImports_cons o os acc _ hs] at h
        refine ih _ full e ?_ hsub' h
        intro n v hv
        by_cases hnn : n = o.name
        · subst hnn
          rw [alookup_aset_self] at hv
          cases hv
          exact ⟨o, hmem, hb, rfl, rfl⟩
        · rw [alookup_aset_ne _ _ _ _ hnn] at hv
          exact horig n v hv
      | some existing =>
        by_cases he : existing = trimVendor o.path
        · have hs : collectStep acc o = .ok (aset acc o.name (trimVendor o.path)) := by
            simp [collectStep_eq, hb, hl, he]
          rw [collectImports_cons o os acc _ hs] at h
          refine ih _ full e ?_ hsub' h
          intro n v hv
          by_cases hnn : n = o.name
          · subst hnn
            rw [alookup_aset_self] at hv
            cases hv
            exact ⟨o, hmem, hb, rfl, rfl⟩
          · rw [alookup_aset_ne _ _ _ _ hnn] at hv
            exact horig n v hv
        · obtain ⟨o1, ho1, hb1, hn1, hv1⟩ := horig o.name existing hl
          refine ⟨o1, ho1, o, hmem, hb1, hb, hn1, ?_⟩
          rw [hv1]
          exact he
    · have hs : collectStep acc o = .ok acc := by
        simp [collectStep_eq, hb]
      rw [collectImports_cons o os acc _ hs] at h
      exact ih acc full e horig hsub' h

theorem collectImports_error_message (os : List Obs) :
    ∀ (acc : List (String × String)) (e : String),
    collectImports os acc = .error e → e = conflictMessage := by
  induction os with
  | nil =>
    intro acc e h
    simp [collectImports] at h
  | cons o os ih =>
    intro acc e h
    by_cases hb : binds o = true
    · cases hl : alookup acc o.name with
      | none =>
        have hs : collectStep acc o = .ok (aset acc o.name (trimVendor o.path)) := by
          simp [collectStep_eq, hb, hl]
        rw [collectImports_cons o os acc _ hs] at h
        exact ih _ _ h
      | some existing =>
        by_cases he : existing = trimVendor o.path
        · have hs : collectStep acc o = .ok (aset acc o.name (trimVendor o.path)) := by
            simp [collectStep_eq, hb, hl, he]
          rw [collectImports_cons o os acc _ hs] at h
          exact ih _ _ h
        · have hs : collectStep acc o = .error conflictMessage := by
            simp [collectStep_eq, hb, hl, he]
          rw [collectImports_cons_error o os acc _ hs] at h
          cases h
          rfl
    · have hs : collectStep acc o = .ok acc := by
        simp [collectStep_eq, hb]
      rw [collectImports_cons o os acc _ hs] at h
      exact ih _ _ h

/-- C8: the import synthesizer fails — with the conflicting-imports panic,
which propagates out of the compiler and aborts the invocation — exactly when
the generated file binds two distinct modules (import paths compared after
vendor-trimming) to the same local name. -/
theorem conflicting_import_aborts (obs : List Obs) :
    addImportsCheck obs = .error conflictMessage ↔ HasConflict obs := by
  constructor
  · intro h
    exact collectImports_error_conflict obs [] obs conflictMessage
      (fun n v hv => by simp [alookup] at hv)
      (fun o2 ho2 => ho2) h
  · intro hc
    obtain ⟨o1, ho1, o2, ho2, hb1, hb2, hname, hne⟩ := hc
    cases hres : addImportsCheck obs with
    | error e =>
      rw [collectImports_error_message obs [] e hres]
    | ok m =>
      exfalso
      obtain ⟨-, hbind⟩ := collectImports_ok_sound obs [] m hres
      have h1 := hbind o1 ho1 hb1
      have h2 := hbind o2 ho2 hb2
      rw [hname] at h1
      rw [h1] at h2
      injection h2 with h3
      exact hne h3

end Imports

namespace Compiler

/-- C5 (amended): for every range statement over a mapping with a key or
value binding present (not the bare `for range m` form), one desugar step
splits the loop in two: the first loop — the raw, untouched `range` over the
mapping inside `collectKeys`, which the desugarer deliberately does not
desugar and which contains only the generated append — collects the keys
into a freshly allocated slice; the second loop ranges over that key slice
and its body re-looks-up each value in the mapping with a presence check
(`value, ok := m[key]; if ok`), skipping entries no longer present. -/
theorem desugar_map_range_split (d : D) (fuel : Nat) (st : DState)
    (key value : Option Expr) (tok : AssignTok) (x : Expr) (body : List Stmt)
    (bt ct ul : Option String) (keyT valT : GoType)
    (xv : Expr) (st1 : DState) (keys : Expr) (st2 : DState)
    (k : Expr) (st3 : DState) (mapKey : Expr) (st4 : DState)
    (mapValue : Expr) (okv : Expr) (st5 : DState)
    (iter : Stmt) (st6 : DState)
    (hmap : typeOf d st x = .mapT keyT valT)
    (hnot : ¬(key = none ∧ value = none))
    (hx : newVar st (GoType.mapT keyT valT) = (xv, st1))
    (hkeys : newVar st1 (.slice keyT) = (keys, st2))
    (hkvar : newVar st2 .int = (k, st3))
    (hk : resolveRangeIdent key keyT st3 = .ok (mapKey, st4))
    (hv : resolveValueIdent value = .ok mapValue)
    (hok : newVar st4 .bool = (okv, st5))
    (hiter : desugarS d fuel st5
      (Stmt.rangeS none (some mapKey) .define keys
        [Stmt.ifS (some (.assignS [mapValue, okv] .define [.indexE xv mapKey]))
          okv body none])
      bt ct ul = .ok (iter, st6)) :
    desugarS d (fuel + 1) st (.rangeS key value tok x body) bt ct ul
      = .ok (Stmt.block
          [Stmt.assignS [xv] .define [x],
           Stmt.block
             [Stmt.assignS [keys] .define
               [.callE (.ident "make")
                 [.typeE (.slice keyT), .basicLit "INT" "0",
                  .callE (.ident "len") [xv]]],
              Stmt.rangeS (some k) none .define xv
                [Stmt.assignS [keys] .assign
                  [.callE (.ident "append") [keys, k]]]],
           iter], st6) := by
  rcases hkey : key with _ | ke
  · rcases hvalue : value with _ | ve
    · subst hkey hvalue
      exact absurd ⟨rfl, rfl⟩ hnot
    · subst hkey hvalue
      simp only [desugarS, hmap, hx, hkeys, hkvar, hk, hv, hok, hiter,
        Bind.bind, Except.bind, Pure.pure, Except.pure]
  · subst hkey
    rcases hvalue : value with _ | ve <;> subst hvalue <;>
      simp only [desugarS, hmap, hx, hkeys, hkvar, hk, hv, hok, hiter,
        Bind.bind, Except.bind, Pure.pure, Except.pure]

/-- C5 counterexample: the bare `for range m {}` statement over a mapping is
not split in two — it desugars to an indexed counting loop whose result
contains no range statement at all (in particular no key-collecting loop). -/
theorem desugar_bare_map_range_not_split :
    desugarS dW 10 st0 (.rangeS none none .define (.ident "m") []) none none none
      = .ok (bareMapRangeResult,
          { vars := 2, labels := 1, unusedLabels := ["_l0"], userLabels := [],
            defs := [("_v1", .int), ("_v0", mapIntInt)] }) ∧
    stmtHasRange bareMapRangeResult = false :=
  ⟨rfl, rfl⟩

/-- C5 witness: the split rule evaluated end to end on
`for kk, vv := range m { e }` over a map typed int to int. -/
theorem desugar_map_range_split_witness :
    desugarS dW (9 + 1) st0
      (.rangeS (some (.ident "kk")) (some (.ident "vv")) .define (.ident "m")
        [.exprS (.anonE 0)]) none none none
      = .ok (Stmt.block
          [Stmt.assignS [.ident "_v0"] .define [.ident "m"],
           Stmt.block
             [Stmt.assignS [.ident "_v1"] .define
               [.callE (.ident "make")
                 [.typeE (.slice .int), .basicLit "INT" "0",
                  .callE (.ident "len") [.ident "_v0"]]],
              Stmt.rangeS (some (.ident "_v2")) none .define (.ident "_v0")
                [Stmt.assignS [.ident "_v1"] .assign
                  [.callE (.ident "append") [.ident "_v1", .ident "_v2"]]]],
           iterW], st6W) := by
  exact desugar_map_range_split dW 9 st0
    (some (.ident "kk")) (some (.ident "vv")) .define (.ident "m")
    [.exprS (.anonE 0)] none none none .int .int
    (.ident "_v0")
    { vars := 1, labels := 0, unusedLabels := [], userLabels := [],
      defs := [("_v0", mapIntInt)] }
    (.ident "_v1")
    { vars := 2, labels := 0, unusedLabels := [], userLabels := [],
      defs := [("_v1", .slice .int), ("_v0", mapIntInt)] }
    (.ident "_v2")
    { vars := 3, labels := 0, unusedLabels := [], userLabels := [],
      defs := [("_v2", .int), ("_v1", .slice .int), ("_v0", mapIntInt)] }
    (.ident "kk")
    { vars := 3, labels := 0, unusedLabels := [], userLabels := [],
      defs := [("_v2", .int), ("_v1", .slice .int), ("_v0", mapIntInt)] }
    (.ident "vv") (.ident "_v3") st5W iterW st6W
    rfl (by simp) rfl rfl rfl rfl rfl rfl rfl

/-- C6: every colored procedure whose body is a single expression statement
is left untransformed by the dispatch rewriter: provided the (not-in-src)
desugar and branch-marking passes leave the single expression statement
unchanged — which the spec's desugaring rules guarantee, as they touch only
branches, loops, switches and labels — the compiled body is exactly the
preprocessed original (the expression rewritten only by the colored
function-literal replacement `flit`), with no context load, frame push,
dispatch, or epilogue inserted. -/
theorem single_expr_body_untransformed (P : Pieces) (e : Expr)
    (hm : P.mrk [Stmt.exprS e] = [Stmt.exprS e])
    (hd : P.dsg [Stmt.exprS e] = [Stmt.exprS e]) :
    compileFuncBody P [Stmt.exprS e] = [Stmt.exprS (P.flit e)] ∧
    isExpr [Stmt.exprS (P.flit e)] = true := by
  constructor
  · simp [compileFuncBody, hm, hd, rwList, rwStmt, isExpr]
  · rfl

/-- C9: a colored procedure with an empty block body is also left
untransformed — `isExpr` accepts the empty statement list, so the compiled
body equals the original empty body with no frame push, prologue, or
epilogue inserted (the single-expression exemption extends to empty
bodies). -/
theorem empty_body_untransformed (P : Pieces)
    (hm : P.mrk [] = []) (hd : P.dsg [] = []) :
    compileFuncBody P [] = [] ∧ isExpr ([] : List Stmt) = true := by
  constructor
  · simp [compileFuncBody, hm, hd, rwList, isExpr]
  · rfl

theorem withFinalReturn_head (h : Bool) (s : Stmt) (t : List Stmt) :
    (withFinalReturn h (s :: t)).head? = some s := by
  unfold withFinalReturn
  dsimp only
  split
  · rfl
  · rfl

/-- When the preprocessed body is not exempt, the compiled body begins with
the generated context-load statement. -/
theorem compileFuncBody_not_expr_prologue (P : Pieces) (body : List Stmt)
    (h : isExpr (rwList P.flit (P.dsg (P.mrk body)) false).1 = false) :
    (compileFuncBody P body).head? = some (ctxLoadStmt P) := by
  unfold compileFuncBody
  dsimp only
  rw [h]
  simp only [Bool.false_eq_true, if_false]
  exact withFinalReturn_head _ _ _

/-- C6 witness: the exemption evaluated on a concrete single-expression
body with identity collaborator passes. -/
theorem single_expr_body_untransformed_witness :
    compileFuncBody trivialPieces [Stmt.exprS (.anonE 0)]
      = [Stmt.exprS (.anonE 0)] ∧
    isExpr [Stmt.exprS (.anonE 0)] = true :=
  single_expr_body_untransformed trivialPieces (.anonE 0) rfl rfl

/-- C9 witness: the exemption evaluated on the empty body with identity
collaborator passes. -/
theorem empty_body_untransformed_witness :
    compileFuncBody trivialPieces [] = ([] : List Stmt) ∧
    isExpr ([] : List Stmt) = true :=
  empty_body_untransformed trivialPieces rfl rfl

end Compiler

